import Mathlib

/-!
Verification development for `busboy-async`: an adapter turning a push-based
event producer (busboy) into a pull-based async generator.

The embedding follows the TypeScript source:
* `Queue` embeds `src/queue.ts` (a `Map`-backed FIFO with wrapping
  head/tail counters).
* `GenState`/`step`/`run` embed the generator loop of `busboy` in
  `src/index.ts` (listener callbacks `onFile`, `notify`, the
  `while (true)` pop/yield loop, and the bookkeeping of
  `yieldedFileStreams`).
* `teardown` embeds the `finally` block of the generator, parameterised
  by which cleanup steps throw, mirroring the `try { } catch {}`
  structure of the source.
* `busboySetup` embeds the configuration handling
  (`config?.allowedFileNames ?? []`, `delete config?.allowedFileNames`,
  and the spread `{...(config ?? {}), headers: source.headers}`).
-/

namespace BusboyAsync

/-- `Number.MAX_SAFE_INTEGER` = 2^53 - 1, the wrap point of the queue's
position counters in `queue.ts`. -/
def maxSafeInteger : Nat := 9007199254740991

/-- The modulus of the position counters: `maxSafeInteger + 1 = 2^53`. -/
def counterModulus : Nat := maxSafeInteger + 1

/-- Embeds `Queue.advance` from `queue.ts`:
`value === Number.MAX_SAFE_INTEGER ? 0 : value + 1`. -/
def advance (value : Nat) : Nat :=
  if value = maxSafeInteger then 0 else value + 1

/-- Embeds the `Queue` class of `queue.ts`: a `Map<number, TItem>` (modelled
extensionally as `Nat → Option α`) with `head`/`tail` position counters. -/
structure Queue (α : Type) where
  data : Nat → Option α
  head : Nat
  tail : Nat

/-- The initial queue: `data = new Map(); head = 0; tail = 0`. -/
def Queue.empty (α : Type) : Queue α := ⟨fun _ => none, 0, 0⟩

/-- Embeds `Queue.isEmpty`: `this.head === this.tail`. -/
def Queue.isEmpty {α : Type} (q : Queue α) : Bool := q.head == q.tail

/-- Embeds `Queue.push`: `this.data.set(this.tail, item); this.tail =
this.advance(this.tail)`. -/
def Queue.push {α : Type} (q : Queue α) (item : α) : Queue α :=
  { data := fun k => if k = q.tail then some item else q.data k
    head := q.head
    tail := advance q.tail }

/-- Embeds `Queue.pop`: reads `data.get(this.head)` (`none` models the
`undefined` of popping an empty queue), deletes the key, and advances
`head`.  Returns the popped item together with the updated queue. -/
def Queue.pop {α : Type} (q : Queue α) : Option α × Queue α :=
  (q.data q.head,
    { data := fun k => if k = q.head then none else q.data k
      head := advance q.head
      tail := q.tail })

/-- Abstraction relation: the queue represents the list `l` (oldest item
first).  The live keys are `(head + i) % counterModulus` for `i < l.length`;
this captures the wrapping of the counters at `maxSafeInteger`. -/
def Queue.models {α : Type} (q : Queue α) (l : List α) : Prop :=
  q.head < counterModulus ∧
  q.tail = (q.head + l.length) % counterModulus ∧
  l.length < counterModulus ∧
  ∀ i : Nat, i < l.length → q.data ((q.head + i) % counterModulus) = l[i]?

/-! ## Events

The event vocabulary of `index.ts`.  File stream handles are identified by
numeric ids; error payloads (`unknown` in the source) are modelled by
numeric codes. -/

/-- `Busboy.FieldInfo`. -/
structure FieldInfo where
  encoding : String
  mimeType : String
  nameTruncated : Bool
  valueTruncated : Bool
deriving DecidableEq, Repr

/-- `Busboy.FileInfo`. -/
structure FileInfo where
  encoding : String
  mimeType : String
  filename : String
deriving DecidableEq, Repr

/-- The externally visible `Event` union of `index.ts`
(`FieldEvent | FieldsLimitEvent | FileEvent | FilesLimitEvent |
PartsLimitEvent`). -/
inductive Event where
  | field (name value : String) (info : FieldInfo)
  | fieldsLimit
  | file (name : String) (stream : Nat) (info : FileInfo)
  | filesLimit
  | partsLimit
deriving DecidableEq, Repr

/-- `InternalEvent = Event | CloseInternalEvent | ErrorInternalEvent`. -/
inductive InternalEvent where
  | ev (e : Event)
  | close
  | error (code : Nat)
deriving DecidableEq, Repr

/-! ## Generator state

`GenState` holds the closure state of one invocation of the `busboy` async
generator: the queue, the wake flag, the `yieldedFileStreams` array, and
flags for the external resources (source pipe, listeners, file streams,
the busboy instance) that the `finally` block manipulates.  `pushed` and
`popped` record the history of `queue.push`/`queue.pop` calls. -/

/-- Observable state of a file stream handle. -/
structure StreamState where
  resumed : Bool := false
  errorSuppressed : Bool := false
  closed : Bool := false
  destroyed : Bool := false
deriving DecidableEq, Repr

/-- How the generator loop ended: `break` on the close event, `throw` of an
error event's payload, or abandonment by the consumer. -/
inductive Outcome where
  | completed
  | failed (code : Nat)
  | abandoned
deriving DecidableEq, Repr

/-- State of one invocation of the `busboy` generator. -/
structure GenState where
  queue : Queue InternalEvent
  /-- The consumer is suspended on `await waiter`. -/
  blocked : Bool
  /-- Events yielded to the consumer so far, in order. -/
  yielded : List Event
  /-- The `yieldedFileStreams` array of `index.ts`. -/
  yieldedFileStreams : List Nat
  outcome : Option Outcome
  streams : Nat → StreamState
  /-- History: every event passed to `queue.push`, in order. -/
  pushed : List InternalEvent
  /-- History: number of `queue.pop` calls. -/
  popped : Nat
  piped : Bool
  sourceReadable : Bool
  sourceResumed : Bool
  /-- Number of listeners attached to the busboy instance. -/
  listeners : Nat
  busboyEnded : Bool
  busboyErrorSuppressed : Bool
  busboyDestroyed : Bool

/-- State right after the listener registrations and `source.pipe(busboy)`,
before the first loop iteration. -/
def initState (sourceReadable : Bool) : GenState :=
  { queue := Queue.empty InternalEvent
    blocked := false
    yielded := []
    yieldedFileStreams := []
    outcome := none
    streams := fun _ => {}
    pushed := []
    popped := 0
    piped := true
    sourceReadable := sourceReadable
    sourceResumed := false
    listeners := 7
    busboyEnded := false
    busboyErrorSuppressed := false
    busboyDestroyed := false }

/-- Pointwise update of the stream table. -/
def setStream (streams : Nat → StreamState) (sid : Nat) (st : StreamState) :
    Nat → StreamState :=
  fun k => if k = sid then st else streams k

/-- Embeds `notify`: `queue.push(event)`, then resolve the current waiter
(waking a blocked consumer) and install a fresh unresolved one. -/
def notifyPush (s : GenState) (e : InternalEvent) : GenState :=
  { s with queue := s.queue.push e
           pushed := s.pushed ++ [e]
           blocked := false }

/-- An atomic step of the system: a producer callback firing, one iteration
of the consumer loop, the consumer abandoning the iteration, or the
consumer finishing (closing and destroying) a stream it owns. -/
inductive Action where
  | emit (e : InternalEvent)
  | consume
  | abandon
  | finishStream (sid : Nat)

/-- One step of the system, for the allow-list `allowed` read from the
configuration.

* `emit`: the producer listeners of `index.ts`.  `onClose`, `onError`,
  `onField` and the three limit listeners call `notify` unconditionally;
  `onFile` checks `allowedFileNames.length === 0 ||
  allowedFileNames.includes(name)` and otherwise calls `stream.resume()`
  without enqueueing.
* `consume`: one iteration of the `while (true)` loop: if the queue is
  non-empty pop one event and branch on its `type` (`close` → `break`,
  `error` → `throw`, `file` → record the stream and `yield`, otherwise
  `yield`); if the queue is empty, suspend on `await waiter`.
* `abandon`: the consumer breaks out of `for await`, which is only possible
  while the generator is suspended at a `yield` (not at `await waiter`).
* `finishStream`: the consumer fully consumes/destroys a yielded stream.

The branch of the loop body on the popped event's `type` is split into
`consumeEvent`: `close` → `break`, `error` → `throw event.error`, `file` →
record the stream in `yieldedFileStreams` and `yield`, otherwise `yield`.
(`none`, the `undefined` of popping an empty queue, cannot occur: the loop
checks `!queue.isEmpty()` first.) -/
def consumeEvent (s1 : GenState) : Option InternalEvent → GenState
  | none => s1
  | some .close => { s1 with outcome := some .completed }
  | some (.error code) => { s1 with outcome := some (.failed code) }
  | some (.ev (.file name sid info)) =>
      { s1 with yieldedFileStreams := s1.yieldedFileStreams ++ [sid]
                yielded := s1.yielded ++ [.file name sid info] }
  | some (.ev e) => { s1 with yielded := s1.yielded ++ [e] }

/-- One step of the system (see the documentation of `consumeEvent` for the
loop-body branch). -/
def step (allowed : List String) (s : GenState) : Action → GenState
  | .emit n =>
    match n with
    | .ev (.file name sid info) =>
        if allowed.length = 0 || allowed.contains name then
          notifyPush s (.ev (.file name sid info))
        else
          let st := s.streams sid
          { s with streams := setStream s.streams sid { st with resumed := true } }
    | n => notifyPush s n
  | .consume =>
    if s.outcome.isSome || s.blocked then s
    else if s.queue.isEmpty then { s with blocked := true }
    else
      consumeEvent { s with queue := (s.queue.pop).2, popped := s.popped + 1 }
        (s.queue.pop).1
  | .abandon =>
    if s.outcome.isSome || s.blocked then s
    else { s with outcome := some .abandoned }
  | .finishStream sid =>
    let st := s.streams sid
    { s with streams := setStream s.streams sid { st with closed := true, destroyed := true } }

/-- Run a schedule of steps. -/
def run (allowed : List String) (s : GenState) (as : List Action) : GenState :=
  as.foldl (step allowed) s

/-! ## Teardown

The `finally` block of the generator, parameterised by which cleanup calls
throw, mirroring the `try { } catch {}` structure of the source: the
`source.unpipe`, `source.resume` and per-stream cleanup steps are each
wrapped in their own `try { } catch (_e) {}`; the `busboy.off` calls and
the final `busboy.end()/busboy.destroy()` are not wrapped. -/

/-- Which teardown calls throw. -/
structure TearBehavior where
  unpipeThrows : Bool := false
  resumeThrows : Bool := false
  offThrows : Bool := false
  streamResumeThrows : Nat → Bool := fun _ => false
  streamDestroyThrows : Nat → Bool := fun _ => false
  endThrows : Bool := false
  destroyThrows : Bool := false

/-- No teardown call throws. -/
def TearBehavior.quiet : TearBehavior := {}

/-- One iteration of the teardown loop over `yieldedFileStreams`:
`try { if (!stream.closed || !stream.destroyed) { stream.once("error",
() => \x7b\x7d); stream.resume(); stream.destroy(); } } catch (_e) {}`.
A throw from `resume` or `destroy` is caught, keeping the partial effects
made before it. -/
def tearStreamStep (b : TearBehavior) (streams : Nat → StreamState)
    (sid : Nat) : Nat → StreamState :=
  let st := streams sid
  if !st.closed || !st.destroyed then
    let st1 := { st with errorSuppressed := true }
    if b.streamResumeThrows sid then setStream streams sid st1
    else
      let st2 := { st1 with resumed := true }
      if b.streamDestroyThrows sid then setStream streams sid st2
      else setStream streams sid { st2 with destroyed := true }
  else streams

/-- The `for (const stream of yieldedFileStreams)` teardown loop. -/
def tearStreams (b : TearBehavior) (ids : List Nat)
    (streams : Nat → StreamState) : Nat → StreamState :=
  ids.foldl (tearStreamStep b) streams

/-- Embeds the `finally` block of the `busboy` generator.  The boolean
result records whether an exception escaped the block; only the
unwrapped steps (`busboy.off` and the final `busboy.end()/destroy()`)
can escape, aborting the steps after them. -/
def teardown (b : TearBehavior) (s : GenState) : GenState × Bool :=
  let s := if b.unpipeThrows then s else { s with piped := false }
  let s := if s.sourceReadable && !b.resumeThrows then
    { s with sourceResumed := true } else s
  if b.offThrows then (s, true)
  else
    let s := { s with listeners := 0 }
    let s := { s with streams := tearStreams b s.yieldedFileStreams s.streams }
    if s.busboyDestroyed then (s, false)
    else
      let s := { s with busboyErrorSuppressed := true }
      if b.endThrows then (s, true)
      else
        let s := { s with busboyEnded := true }
        if b.destroyThrows then (s, true)
        else ({ s with busboyDestroyed := true }, false)

/-! ## Configuration handling

Embeds the `Config` type of `index.ts` (`Busboy.Config` plus
`allowedFileNames`) and the prelude of the generator that reads the
allow-list, deletes it from the caller's object, and spreads the rest
into the `busboyInternal` constructor call. -/

/-- `Busboy.Limits`. -/
structure Limits where
  fieldNameSize : Option Nat := none
  fieldSize : Option Nat := none
  fields : Option Nat := none
  fileSize : Option Nat := none
  files : Option Nat := none
  parts : Option Nat := none
  headerPairs : Option Nat := none
deriving DecidableEq, Repr

/-- `Busboy.Config`: the native busboy options. -/
structure BusboyNativeConfig where
  highWaterMark : Option Nat := none
  fileHwm : Option Nat := none
  defCharset : Option String := none
  defParamCharset : Option String := none
  preservePath : Option Bool := none
  limits : Option Limits := none
deriving DecidableEq, Repr

/-- `Config = Busboy.Config & { allowedFileNames?: string[] }`.
`none` models an absent property. -/
structure Config extends BusboyNativeConfig where
  allowedFileNames : Option (List String) := none
deriving DecidableEq, Repr

/-- Request headers, as carried by `source.headers`. -/
abbrev Headers := List (String × String)

/-- The object passed to `busboyInternal({...})`.  The `allowedFileNames`
slot records what the object spread would carry over from the caller's
config object at the moment of the call. -/
structure BusboyInit where
  native : BusboyNativeConfig
  allowedFileNames : Option (List String)
  headers : Option Headers
deriving DecidableEq, Repr

/-- Embeds the configuration prelude of the `busboy` generator:

```js
const allowedFileNames = config?.allowedFileNames ?? [];
delete config?.allowedFileNames;
const busboy = busboyInternal({ ...(config ?? \x7b\x7d), headers: source.headers });
```

Returns the allow-list captured by `onFile`, the caller's config object
after the call (mutated by `delete`), and the object handed to the
producer. -/
def busboySetup (sourceHeaders : Option Headers) (config : Option Config) :
    List String × Option Config × BusboyInit :=
  let allowedFileNames := (config.bind (fun c => c.allowedFileNames)).getD []
  let config1 := config.map (fun c => { c with allowedFileNames := none })
  ( allowedFileNames
  , config1
  , { native := (config1.map (fun c => c.toBusboyNativeConfig)).getD {}
      allowedFileNames := config1.bind (fun c => c.allowedFileNames)
      headers := sourceHeaders } )

/-! ## Specification helpers -/

/-- The externally visible events the loop yields from a list of queued
internal events, stopping at the first terminal marker. -/
def processAll : List InternalEvent → List Event
  | [] => []
  | .close :: _ => []
  | .error _ :: _ => []
  | .ev e :: rest => e :: processAll rest

/-- The first terminal marker in a list of internal events, as the outcome
it causes. -/
def termOf : List InternalEvent → Option Outcome
  | [] => none
  | .close :: _ => some .completed
  | .error code :: _ => some (.failed code)
  | .ev _ :: rest => termOf rest

/-- Stream ids of the file events of a list of external events, in order. -/
def fileSids : List Event → List Nat
  | [] => []
  | .file _ sid _ :: rest => sid :: fileSids rest
  | .field _ _ _ :: rest => fileSids rest
  | .fieldsLimit :: rest => fileSids rest
  | .filesLimit :: rest => fileSids rest
  | .partsLimit :: rest => fileSids rest

/-- Stream ids of the file events among the enqueued internal events. -/
def enqueuedFileSids : List InternalEvent → List Nat
  | [] => []
  | .ev (.file _ sid _) :: rest => sid :: enqueuedFileSids rest
  | _ :: rest => enqueuedFileSids rest

/-- Every file event of the list respects the allow-list. -/
def okFileEvents (allowed : List String) (l : List InternalEvent) : Prop :=
  ∀ name sid info, InternalEvent.ev (.file name sid info) ∈ l →
    allowed.length = 0 ∨ allowed.contains name = true

/-- Consistency of the loop's outcome with the popped prefix of the pushed
history: while running (or abandoned) no terminal marker has been popped;
a completed run popped exactly through a close event; a failed run popped
exactly through the error event carrying the raised code. -/
def OutClause (out : Option Outcome) (taken : List InternalEvent) : Prop :=
  match out with
  | none => termOf taken = none
  | some .abandoned => termOf taken = none
  | some .completed => ∃ p, taken = p ++ [.close] ∧ termOf p = none
  | some (.failed code) => ∃ p, taken = p ++ [.error code] ∧ termOf p = none

/-- The invariant tying a generator state to the history of pushed events:
the queue holds exactly the pushed-but-not-popped suffix, the yielded
events are the external events of the popped prefix, the
`yieldedFileStreams` array matches the yielded file events, every pushed
file event respects the allow-list, and the outcome matches the terminal
markers of the popped prefix. -/
def Inv (allowed : List String) (s : GenState) : Prop :=
  s.queue.models (s.pushed.drop s.popped) ∧
  s.popped ≤ s.pushed.length ∧
  s.yielded = processAll (s.pushed.take s.popped) ∧
  s.yieldedFileStreams = fileSids s.yielded ∧
  okFileEvents allowed s.pushed ∧
  OutClause s.outcome (s.pushed.take s.popped)

/-! ## Wake gate

A direct model of the `resolver`/`waiter` pair of `index.ts` at the level
of promises: `gen` is the id of the current `waiter` promise and
`resolved i` tells whether waiter `i` has been resolved.  (In the run
model above, the gate is collapsed into the `blocked` flag: `notify`
always resolves the waiter a blocked consumer is awaiting.) -/

/-- The `resolver`/`waiter` pair. -/
structure Gate where
  gen : Nat
  resolved : Nat → Bool

/-- `new Promise((resolve) => (resolver = resolve))`: waiter 0 exists and
is unresolved. -/
def Gate.init : Gate := ⟨0, fun _ => false⟩

/-- The waiter bookkeeping of `notify`: `resolver()` resolves the current
waiter, then `waiter = new Promise((resolve) => (resolver = resolve))`
installs a fresh, unresolved one before `notify` returns. -/
def Gate.notify (g : Gate) : Gate :=
  ⟨g.gen + 1, fun i => if i = g.gen then true else g.resolved i⟩

/-! ## Concrete fixtures used by witnesses and counterexamples -/

def sampleFieldInfo : FieldInfo := ⟨"utf-8", "text/plain", false, false⟩

def sampleFileInfo : FileInfo :=
  ⟨"utf-8", "application/octet-stream", "f.bin"⟩

/-- Three file events are emitted; the consumer pops and yields only the
first, then abandons the iteration, leaving two file events in the
queue. -/
def threeFilesSchedule : List Action :=
  [.emit (.ev (.file "a" 1 sampleFileInfo)),
   .emit (.ev (.file "b" 2 sampleFileInfo)),
   .emit (.ev (.file "c" 3 sampleFileInfo)),
   .consume, .abandon]

/-- A field event followed by the close marker; the consumer drains. -/
def completedSchedule : List Action :=
  [.emit (.ev (.field "a" "1" sampleFieldInfo)), .emit .close,
   .consume, .consume]

/-- A field event followed by an error marker; the consumer drains. -/
def failedSchedule : List Action :=
  [.emit (.ev (.field "a" "1" sampleFieldInfo)), .emit (.error 7),
   .consume, .consume]

/-- The consumer suspends on the empty queue, two events arrive in rapid
succession while it is suspended (one coalesced wake), then it drains. -/
def coalescedWakeSchedule (n1 v1 n2 v2 : String) : List Action :=
  [.consume, .emit (.ev (.field n1 v1 sampleFieldInfo)),
   .emit (.ev (.field n2 v2 sampleFieldInfo)), .consume, .consume]

/-- An empty queue whose counters sit at `Number.MAX_SAFE_INTEGER`, about
to wrap. -/
def wrapQueue : Queue Nat := ⟨fun _ => none, maxSafeInteger, maxSafeInteger⟩

/-- A generator state with one delivered stream handle, used to exhibit
the unwrapped teardown steps. -/
def oneStreamState : GenState :=
  { initState false with yieldedFileStreams := [1] }

/-- Teardown behaviour where the `busboy.off` calls throw. -/
def offThrowsBehavior : TearBehavior := { offThrows := true }

/-! ## Queue refinement lemmas -/

lemma counterModulus_pos : 0 < counterModulus := by
  unfold counterModulus maxSafeInteger
  omega

lemma advance_eq_mod {v : Nat} (h : v < counterModulus) :
    advance v = (v + 1) % counterModulus := by
  unfold advance counterModulus maxSafeInteger at *
  split <;> omega

lemma pos_inj {h i j : Nat} (hi : i < counterModulus) (hj : j < counterModulus)
    (he : (h + i) % counterModulus = (h + j) % counterModulus) : i = j := by
  unfold counterModulus maxSafeInteger at *
  omega

lemma Queue.models_empty (α : Type) : (Queue.empty α).models [] := by
  refine ⟨?_, ?_, ?_, ?_⟩ <;>
    simp [Queue.empty, counterModulus, maxSafeInteger]

lemma Queue.models_push {α : Type} {q : Queue α} {l : List α} (a : α)
    (h : q.models l) (hlen : l.length + 1 < counterModulus) :
    (q.push a).models (l ++ [a]) := by
  obtain ⟨hhd, htl, hln, hdata⟩ := h
  refine ⟨hhd, ?_, by simpa using hlen, ?_⟩
  · show advance q.tail = (q.head + (l ++ [a]).length) % counterModulus
    rw [htl, advance_eq_mod (Nat.mod_lt _ counterModulus_pos),
      Nat.mod_add_mod]
    simp only [List.length_append, List.length_singleton]
    rw [Nat.add_assoc]
  · intro i hi
    simp only [List.length_append, List.length_singleton] at hi
    show (if (q.head + i) % counterModulus = q.tail then some a
          else q.data ((q.head + i) % counterModulus)) = (l ++ [a])[i]?
    rcases Nat.lt_or_ge i l.length with hil | hil
    · rw [if_neg, hdata i hil, List.getElem?_append_left hil]
      rw [htl]
      intro hc
      have hi1 : i < counterModulus := by omega
      have hi2 : l.length < counterModulus := hln
      have := pos_inj hi1 hi2 hc
      omega
    · have hieq : i = l.length := by omega
      subst hieq
      rw [if_pos (by rw [htl]), List.getElem?_concat_length]

lemma Queue.models_pop {α : Type} {q : Queue α} {a : α} {l : List α}
    (h : q.models (a :: l)) : q.pop.1 = some a ∧ q.pop.2.models l := by
  obtain ⟨hhd, htl, hln, hdata⟩ := h
  simp only [List.length_cons] at htl hln
  constructor
  · show q.data q.head = some a
    have h0 := hdata 0 (by simp)
    rw [Nat.add_zero, Nat.mod_eq_of_lt hhd] at h0
    simpa using h0
  · refine ⟨?_, ?_, by omega, ?_⟩
    · show advance q.head < counterModulus
      rw [advance_eq_mod hhd]
      exact Nat.mod_lt _ counterModulus_pos
    · show q.tail = (advance q.head + l.length) % counterModulus
      rw [advance_eq_mod hhd, Nat.mod_add_mod, htl]
      congr 1
      omega
    · intro i hi
      show (if (advance q.head + i) % counterModulus = q.head then none
            else q.data ((advance q.head + i) % counterModulus)) = l[i]?
      rw [advance_eq_mod hhd, Nat.mod_add_mod,
        show q.head + 1 + i = q.head + (1 + i) by omega]
      rw [if_neg]
      · rw [hdata (1 + i) (by simp; omega)]
        simp [show 1 + i = i + 1 by omega]
      · intro hc
        have hc' : (q.head + (1 + i)) % counterModulus
            = (q.head + 0) % counterModulus := by
          rw [hc, Nat.add_zero, Nat.mod_eq_of_lt hhd]
        have h1i : 1 + i < counterModulus := by omega
        have := pos_inj h1i counterModulus_pos hc'
        omega

lemma Queue.isEmpty_models {α : Type} {q : Queue α} {l : List α}
    (h : q.models l) : (q.isEmpty = true ↔ l = []) := by
  obtain ⟨hhd, htl, hln, _⟩ := h
  unfold Queue.isEmpty
  rw [beq_iff_eq, htl]
  constructor
  · intro he
    have hl0 : l.length = 0 := by
      by_contra hc
      unfold counterModulus maxSafeInteger at *
      omega
    exact List.length_eq_zero.mp hl0
  · intro he
    subst he
    simp [Nat.mod_eq_of_lt hhd]


/-! ## Invariant lemmas -/

lemma processAll_append {p q : List InternalEvent} (h : termOf p = none) :
    processAll (p ++ q) = processAll p ++ processAll q := by
  induction p with
  | nil => simp [processAll]
  | cons e rest ih =>
    cases e with
    | ev e' =>
      simp only [termOf] at h
      simp only [List.cons_append, processAll, List.append_eq, ih h]
    | close => simp [termOf] at h
    | error c => simp [termOf] at h

lemma termOf_append {p q : List InternalEvent} (h : termOf p = none) :
    termOf (p ++ q) = termOf q := by
  induction p with
  | nil => simp
  | cons e rest ih =>
    cases e with
    | ev e' =>
      simp only [termOf] at h
      simp only [List.cons_append, termOf, List.append_eq, ih h]
    | close => simp [termOf] at h
    | error c => simp [termOf] at h

lemma fileSids_append (l l' : List Event) :
    fileSids (l ++ l') = fileSids l ++ fileSids l' := by
  induction l with
  | nil => simp [fileSids]
  | cons e rest ih => cases e <;> simp [fileSids, ih]

lemma mem_of_mem_processAll {e : Event} {l : List InternalEvent}
    (h : e ∈ processAll l) : InternalEvent.ev e ∈ l := by
  induction l with
  | nil => simp [processAll] at h
  | cons x rest ih =>
    cases x with
    | ev e' =>
      simp only [processAll, List.mem_cons] at h
      rcases h with h | h
      · simp [h]
      · exact List.mem_cons_of_mem _ (ih h)
    | close => simp [processAll] at h
    | error c => simp [processAll] at h

lemma okFileEvents_append {allowed : List String}
    {l l' : List InternalEvent} (h : okFileEvents allowed l)
    (h' : okFileEvents allowed l') : okFileEvents allowed (l ++ l') := by
  intro name sid info hm
  rcases List.mem_append.mp hm with hm | hm
  · exact h name sid info hm
  · exact h' name sid info hm

lemma okFileEvents_single_not_file {allowed : List String}
    {n : InternalEvent} (h : ∀ name sid info, n ≠ .ev (.file name sid info)) :
    okFileEvents allowed [n] := by
  intro name sid info hm
  simp only [List.mem_singleton] at hm
  exact absurd hm.symm (h name sid info)

/-- `Inv` is preserved by a producer callback, given room in the counter
range for one more push. -/
lemma inv_emit {allowed : List String} {s : GenState} {n : InternalEvent}
    (h : Inv allowed s) (hbound : s.pushed.length + 1 < counterModulus) :
    Inv allowed (step allowed s (.emit n)) := by
  obtain ⟨hq, hpop, hy, hfs, hok, hout⟩ := h
  have push_case : ∀ (m : InternalEvent), okFileEvents allowed [m] →
      Inv allowed (notifyPush s m) := by
    intro m hokm
    refine ⟨?_, ?_, ?_, hfs, okFileEvents_append hok hokm, ?_⟩
    · show (s.queue.push m).models ((s.pushed ++ [m]).drop s.popped)
      rw [List.drop_append_of_le_length hpop]
      exact Queue.models_push m hq (by
        have := List.length_drop s.popped s.pushed
        omega)
    · show s.popped ≤ (s.pushed ++ [m]).length
      simp only [List.length_append, List.length_singleton]
      omega
    · show s.yielded = processAll ((s.pushed ++ [m]).take s.popped)
      rw [List.take_append_of_le_length hpop]
      exact hy
    · show OutClause s.outcome ((s.pushed ++ [m]).take s.popped)
      rw [List.take_append_of_le_length hpop]
      exact hout
  cases n with
  | ev e =>
    cases e with
    | field name value info =>
      exact push_case _ (okFileEvents_single_not_file (by intro a b c; simp))
    | fieldsLimit =>
      exact push_case _ (okFileEvents_single_not_file (by intro a b c; simp))
    | file name sid info =>
      show Inv allowed
        (if allowed.length = 0 || allowed.contains name then _ else _)
      by_cases hcond : (allowed.length = 0 || allowed.contains name) = true
      · rw [if_pos hcond]
        refine push_case _ ?_
        intro name1 sid1 info1 hm
        simp only [List.mem_singleton, InternalEvent.ev.injEq,
          Event.file.injEq] at hm
        rcases hm with ⟨hn, _, _⟩
        subst hn
        simpa [decide_eq_true_eq] using Bool.or_eq_true_iff.mp hcond
      · rw [if_neg hcond]
        exact ⟨hq, hpop, hy, hfs, hok, hout⟩
    | filesLimit =>
      exact push_case _ (okFileEvents_single_not_file (by intro a b c; simp))
    | partsLimit =>
      exact push_case _ (okFileEvents_single_not_file (by intro a b c; simp))
  | close =>
    exact push_case _ (okFileEvents_single_not_file (by intro a b c; simp))
  | error code =>
    exact push_case _ (okFileEvents_single_not_file (by intro a b c; simp))

/-- `Inv` is preserved by one iteration of the consumer loop. -/
lemma inv_consume {allowed : List String} {s : GenState} (h : Inv allowed s) :
    Inv allowed (step allowed s .consume) := by
  obtain ⟨hq, hpop, hy, hfs, hok, hout⟩ := h
  show Inv allowed
    (if s.outcome.isSome || s.blocked then s
     else if s.queue.isEmpty then { s with blocked := true }
     else consumeEvent
       { s with queue := (s.queue.pop).2, popped := s.popped + 1 }
       (s.queue.pop).1)
  by_cases hdone : (s.outcome.isSome || s.blocked) = true
  · rw [if_pos hdone]
    exact ⟨hq, hpop, hy, hfs, hok, hout⟩
  · rw [if_neg hdone]
    have houtn : s.outcome = none := by
      cases ho : s.outcome with
      | none => rfl
      | some o => exact absurd (by simp [ho]) hdone
    have hterm : termOf (s.pushed.take s.popped) = none := by
      rw [houtn] at hout
      exact hout
    by_cases hemp : s.queue.isEmpty = true
    · rw [if_pos hemp]
      exact ⟨hq, hpop, hy, hfs, hok, hout⟩
    · rw [if_neg hemp]
      have hne : s.pushed.drop s.popped ≠ [] := by
        intro hnil
        exact hemp ((Queue.isEmpty_models hq).mpr hnil)
      have hlt : s.popped < s.pushed.length := by
        by_contra hc
        exact hne (List.drop_eq_nil_iff.mpr (by omega))
      have hdec : s.pushed.drop s.popped
          = s.pushed[s.popped] :: s.pushed.drop (s.popped + 1) :=
        List.drop_eq_getElem_cons hlt
      have hq' : s.queue.models
          (s.pushed[s.popped] :: s.pushed.drop (s.popped + 1)) := hdec ▸ hq
      obtain ⟨hpop1, hq2⟩ := Queue.models_pop hq'
      have htake : s.pushed.take (s.popped + 1)
          = s.pushed.take s.popped ++ [s.pushed[s.popped]] := by
        rw [List.take_succ, List.getElem?_eq_getElem hlt]
        rfl
      cases hget : s.pushed[s.popped] with
      | close =>
        rw [hget] at htake hpop1
        rw [hpop1]
        simp only [Inv, consumeEvent]
        refine ⟨hq2, by omega, ?_, hfs, hok, ?_⟩
        · show s.yielded = processAll (s.pushed.take (s.popped + 1))
          rw [htake, processAll_append hterm]
          simp [processAll, hy]
        · exact ⟨s.pushed.take s.popped, htake, hterm⟩
      | error code =>
        rw [hget] at htake hpop1
        rw [hpop1]
        simp only [Inv, consumeEvent]
        refine ⟨hq2, by omega, ?_, hfs, hok, ?_⟩
        · show s.yielded = processAll (s.pushed.take (s.popped + 1))
          rw [htake, processAll_append hterm]
          simp [processAll, hy]
        · exact ⟨s.pushed.take s.popped, htake, hterm⟩
      | ev e =>
        rw [hget] at htake hpop1
        rw [hpop1]
        have hterm1 : termOf (s.pushed.take (s.popped + 1)) = none := by
          rw [htake, termOf_append hterm]
          rfl
        have hyield1 : s.yielded ++ [e]
            = processAll (s.pushed.take (s.popped + 1)) := by
          rw [htake, processAll_append hterm, hy]
          rfl
        cases e with
        | field name value info =>
          simp only [Inv, consumeEvent]
          exact ⟨hq2, by omega, hyield1, by
              simp [fileSids_append, fileSids, hfs], hok,
            by rw [houtn]; exact hterm1⟩
        | fieldsLimit =>
          simp only [Inv, consumeEvent]
          exact ⟨hq2, by omega, hyield1, by
              simp [fileSids_append, fileSids, hfs], hok,
            by rw [houtn]; exact hterm1⟩
        | file name sid info =>
          simp only [Inv, consumeEvent]
          exact ⟨hq2, by omega, hyield1, by
              simp [fileSids_append, fileSids, hfs], hok,
            by rw [houtn]; exact hterm1⟩
        | filesLimit =>
          simp only [Inv, consumeEvent]
          exact ⟨hq2, by omega, hyield1, by
              simp [fileSids_append, fileSids, hfs], hok,
            by rw [houtn]; exact hterm1⟩
        | partsLimit =>
          simp only [Inv, consumeEvent]
          exact ⟨hq2, by omega, hyield1, by
              simp [fileSids_append, fileSids, hfs], hok,
            by rw [houtn]; exact hterm1⟩

/-- `Inv` is preserved by consumer abandonment. -/
lemma inv_abandon {allowed : List String} {s : GenState} (h : Inv allowed s) :
    Inv allowed (step allowed s .abandon) := by
  obtain ⟨hq, hpop, hy, hfs, hok, hout⟩ := h
  show Inv allowed
    (if s.outcome.isSome || s.blocked then s
     else { s with outcome := some .abandoned })
  by_cases hdone : (s.outcome.isSome || s.blocked) = true
  · rw [if_pos hdone]
    exact ⟨hq, hpop, hy, hfs, hok, hout⟩
  · rw [if_neg hdone]
    have houtn : s.outcome = none := by
      cases ho : s.outcome with
      | none => rfl
      | some o => exact absurd (by simp [ho]) hdone
    rw [houtn] at hout
    exact ⟨hq, hpop, hy, hfs, hok, hout⟩

/-- `Inv` is preserved when the consumer finishes a stream. -/
lemma inv_finish {allowed : List String} {s : GenState} {sid : Nat}
    (h : Inv allowed s) : Inv allowed (step allowed s (.finishStream sid)) :=
  h

/-- `Inv` is preserved by every step. -/
lemma inv_step {allowed : List String} {s : GenState} {a : Action}
    (h : Inv allowed s) (hbound : s.pushed.length + 1 < counterModulus) :
    Inv allowed (step allowed s a) := by
  cases a with
  | emit n => exact inv_emit h hbound
  | consume => exact inv_consume h
  | abandon => exact inv_abandon h
  | finishStream sid => exact inv_finish h

/-- `consumeEvent` never pushes. -/
lemma consumeEvent_pushed (s1 : GenState) (o : Option InternalEvent) :
    (consumeEvent s1 o).pushed = s1.pushed := by
  cases o with
  | none => rfl
  | some e =>
    cases e with
    | ev e' => cases e' <;> rfl
    | close => rfl
    | error code => rfl

/-- A step pushes at most one event. -/
lemma step_pushed_le {allowed : List String} {s : GenState} {a : Action} :
    (step allowed s a).pushed.length ≤ s.pushed.length + 1 := by
  have hpush : ∀ m : InternalEvent,
      (notifyPush s m).pushed.length ≤ s.pushed.length + 1 := by
    intro m
    simp [notifyPush]
  cases a with
  | emit n =>
    cases n with
    | ev e =>
      cases e with
      | field name value info => exact hpush _
      | fieldsLimit => exact hpush _
      | file name sid info =>
        show (if allowed.length = 0 || allowed.contains name
            then _ else _ : GenState).pushed.length ≤ _
        by_cases hcond : (allowed.length = 0 || allowed.contains name) = true
        · rw [if_pos hcond]; exact hpush _
        · rw [if_neg hcond]; show s.pushed.length ≤ s.pushed.length + 1; omega
      | filesLimit => exact hpush _
      | partsLimit => exact hpush _
    | close => exact hpush _
    | error code => exact hpush _
  | consume =>
    show (if s.outcome.isSome || s.blocked then s
      else if s.queue.isEmpty then { s with blocked := true }
      else consumeEvent
        { s with queue := (s.queue.pop).2, popped := s.popped + 1 }
        (s.queue.pop).1).pushed.length ≤ _
    by_cases hdone : (s.outcome.isSome || s.blocked) = true
    · rw [if_pos hdone]; omega
    · rw [if_neg hdone]
      by_cases hemp : s.queue.isEmpty = true
      · rw [if_pos hemp]; show s.pushed.length ≤ _; omega
      · rw [if_neg hemp]
        rw [consumeEvent_pushed]
        show s.pushed.length ≤ _
        omega
  | abandon =>
    show (if s.outcome.isSome || s.blocked then s
      else { s with outcome := some .abandoned }).pushed.length ≤ _
    by_cases hdone : (s.outcome.isSome || s.blocked) = true
    · rw [if_pos hdone]; omega
    · rw [if_neg hdone]; show s.pushed.length ≤ _; omega
  | finishStream sid => show s.pushed.length ≤ _; omega

/-- `Inv` holds along any run from an invariant state, given room in the
counter range for the schedule's pushes. -/
lemma run_inv {allowed : List String} {as : List Action} {s : GenState}
    (h : Inv allowed s)
    (hb : s.pushed.length + as.length < counterModulus) :
    Inv allowed (run allowed s as) ∧
      (run allowed s as).pushed.length ≤ s.pushed.length + as.length := by
  induction as generalizing s with
  | nil => exact ⟨h, by simp [run]⟩
  | cons a rest ih =>
    simp only [List.length_cons] at hb
    have hstep : Inv allowed (step allowed s a) := inv_step h (by omega)
    have hlen : (step allowed s a).pushed.length ≤ s.pushed.length + 1 :=
      step_pushed_le
    have hrec := ih hstep (by omega)
    constructor
    · show Inv allowed (run allowed (step allowed s a) rest)
      exact hrec.1
    · show (run allowed (step allowed s a) rest).pushed.length
        ≤ s.pushed.length + (rest.length + 1)
      have h2 := hrec.2
      omega

/-- The invariant holds at the start of the loop. -/
lemma inv_init (allowed : List String) (r : Bool) :
    Inv allowed (initState r) := by
  refine ⟨Queue.models_empty _, by simp [initState], ?_, ?_, ?_, ?_⟩ <;>
    simp [initState, processAll, fileSids, termOf, okFileEvents, OutClause]

/-- Once the loop has terminated, no step changes the yielded events or
the outcome (producer callbacks may still push onto the queue, but the
loop never pops again). -/
lemma step_frozen (allowed : List String) (s : GenState) (a : Action)
    (h : s.outcome.isSome = true) :
    (step allowed s a).yielded = s.yielded ∧
    (step allowed s a).outcome = s.outcome := by
  cases a with
  | emit n =>
    cases n with
    | ev e =>
      cases e with
      | file name sid info =>
        simp only [step]
        by_cases hcond : (allowed.length = 0 || allowed.contains name) = true
        · rw [if_pos hcond]; exact ⟨rfl, rfl⟩
        · rw [if_neg hcond]; exact ⟨rfl, rfl⟩
      | field name value info => exact ⟨rfl, rfl⟩
      | fieldsLimit => exact ⟨rfl, rfl⟩
      | filesLimit => exact ⟨rfl, rfl⟩
      | partsLimit => exact ⟨rfl, rfl⟩
    | close => exact ⟨rfl, rfl⟩
    | error code => exact ⟨rfl, rfl⟩
  | consume =>
    simp only [step]
    rw [if_pos (by simp [h])]
    exact ⟨rfl, rfl⟩
  | abandon =>
    simp only [step]
    rw [if_pos (by simp [h])]
    exact ⟨rfl, rfl⟩
  | finishStream sid => exact ⟨rfl, rfl⟩

/-- Once the loop has terminated, no schedule changes the yielded events
or the outcome. -/
lemma run_frozen {allowed : List String} {as : List Action} {s : GenState}
    (h : s.outcome.isSome = true) :
    (run allowed s as).yielded = s.yielded ∧
    (run allowed s as).outcome = s.outcome := by
  induction as generalizing s with
  | nil => exact ⟨rfl, rfl⟩
  | cons a rest ih =>
    have hs := step_frozen allowed s a h
    have h2 : (step allowed s a).outcome.isSome = true := by
      rw [hs.2]; exact h
    have hr := ih h2
    exact ⟨hr.1.trans hs.1, hr.2.trans hs.2⟩

/-! ## Teardown lemmas -/

lemma tearStreamStep_other {b : TearBehavior} {streams : Nat → StreamState}
    {id k : Nat} (h : k ≠ id) :
    tearStreamStep b streams id k = streams k := by
  simp only [tearStreamStep]
  split
  · split
    · simp [setStream, h]
    · split
      · simp [setStream, h]
      · simp [setStream, h]
  · rfl

lemma tearStreamStep_preserves_destroyed {b : TearBehavior}
    {streams : Nat → StreamState} {sid : Nat} (k : Nat)
    (h : (streams sid).destroyed = true) :
    ((tearStreamStep b streams k) sid).destroyed = true := by
  by_cases hk : sid = k
  · subst hk
    simp only [tearStreamStep]
    split
    · split
      · simp [setStream, h]
      · split
        · simp [setStream, h]
        · simp [setStream]
    · exact h
  · rw [tearStreamStep_other hk]
    exact h

lemma tearStreamStep_self_destroyed {b : TearBehavior}
    {streams : Nat → StreamState} {sid : Nat}
    (hr : b.streamResumeThrows sid = false)
    (hd : b.streamDestroyThrows sid = false) :
    ((tearStreamStep b streams sid) sid).destroyed = true := by
  simp only [tearStreamStep]
  split
  · simp [hr, hd, setStream]
  · rename_i hcond
    simp only [Bool.or_eq_true, Bool.not_eq_true'] at hcond
    push_neg at hcond
    simpa using hcond.2

lemma tearStreams_preserves_destroyed {b : TearBehavior} {ids : List Nat}
    {streams : Nat → StreamState} {sid : Nat}
    (h : (streams sid).destroyed = true) :
    ((tearStreams b ids streams) sid).destroyed = true := by
  induction ids generalizing streams with
  | nil => exact h
  | cons k rest ih =>
    exact ih (tearStreamStep_preserves_destroyed k h)

lemma tearStreams_mem_destroyed {b : TearBehavior} {ids : List Nat}
    {streams : Nat → StreamState} {sid : Nat} (hmem : sid ∈ ids)
    (hr : b.streamResumeThrows sid = false)
    (hd : b.streamDestroyThrows sid = false) :
    ((tearStreams b ids streams) sid).destroyed = true := by
  induction ids generalizing streams with
  | nil => cases hmem
  | cons k rest ih =>
    rcases List.mem_cons.mp hmem with he | hm
    · subst he
      show ((tearStreams b rest (tearStreamStep b streams sid)) sid).destroyed
          = true
      exact tearStreams_preserves_destroyed
        (tearStreamStep_self_destroyed hr hd)
    · exact ih hm

lemma tearStreamStep_preserves_trio {b : TearBehavior}
    {streams : Nat → StreamState} {sid : Nat} (k : Nat)
    (h1 : (streams sid).errorSuppressed = true)
    (h2 : (streams sid).resumed = true)
    (h3 : (streams sid).destroyed = true) :
    ((tearStreamStep b streams k) sid).errorSuppressed = true ∧
    ((tearStreamStep b streams k) sid).resumed = true ∧
    ((tearStreamStep b streams k) sid).destroyed = true := by
  by_cases hk : sid = k
  · subst hk
    simp only [tearStreamStep]
    split
    · split
      · simp [setStream, h1, h2, h3]
      · split
        · simp [setStream, h1, h2, h3]
        · simp [setStream, h1, h2, h3]
    · exact ⟨h1, h2, h3⟩
  · simp only [tearStreamStep_other hk]
    exact ⟨h1, h2, h3⟩

lemma tearStreamStep_self_full {streams : Nat → StreamState} {sid : Nat}
    (hc : (streams sid).closed = false) :
    ((tearStreamStep TearBehavior.quiet streams sid) sid).errorSuppressed
        = true ∧
    ((tearStreamStep TearBehavior.quiet streams sid) sid).resumed = true ∧
    ((tearStreamStep TearBehavior.quiet streams sid) sid).destroyed
        = true := by
  simp [tearStreamStep, TearBehavior.quiet, hc, setStream]

lemma tearStreams_preserves_trio {b : TearBehavior} {ids : List Nat}
    {streams : Nat → StreamState} {sid : Nat}
    (h1 : (streams sid).errorSuppressed = true)
    (h2 : (streams sid).resumed = true)
    (h3 : (streams sid).destroyed = true) :
    ((tearStreams b ids streams) sid).errorSuppressed = true ∧
    ((tearStreams b ids streams) sid).resumed = true ∧
    ((tearStreams b ids streams) sid).destroyed = true := by
  induction ids generalizing streams with
  | nil => exact ⟨h1, h2, h3⟩
  | cons k rest ih =>
    have hs := tearStreamStep_preserves_trio (b := b) k h1 h2 h3
    show ((tearStreams b rest (tearStreamStep b streams k)) sid).errorSuppressed
          = true ∧
      ((tearStreams b rest (tearStreamStep b streams k)) sid).resumed = true ∧
      ((tearStreams b rest (tearStreamStep b streams k)) sid).destroyed = true
    exact ih hs.1 hs.2.1 hs.2.2

lemma tearStreams_mem_trio {ids : List Nat}
    {streams : Nat → StreamState} {sid : Nat} (hmem : sid ∈ ids)
    (hc : (streams sid).closed = false) :
    ((tearStreams TearBehavior.quiet ids streams) sid).errorSuppressed
        = true ∧
    ((tearStreams TearBehavior.quiet ids streams) sid).resumed = true ∧
    ((tearStreams TearBehavior.quiet ids streams) sid).destroyed
        = true := by
  induction ids generalizing streams with
  | nil => cases hmem
  | cons k rest ih =>
    by_cases hk : sid = k
    · subst hk
      have hs := tearStreamStep_self_full hc
      show ((tearStreams TearBehavior.quiet rest
            (tearStreamStep TearBehavior.quiet streams sid)) sid).errorSuppressed
          = true ∧
        ((tearStreams TearBehavior.quiet rest
            (tearStreamStep TearBehavior.quiet streams sid)) sid).resumed
          = true ∧
        ((tearStreams TearBehavior.quiet rest
            (tearStreamStep TearBehavior.quiet streams sid)) sid).destroyed
          = true
      exact tearStreams_preserves_trio hs.1 hs.2.1 hs.2.2
    · have hc' : ((tearStreamStep TearBehavior.quiet streams k) sid).closed
          = false := by
        rw [tearStreamStep_other hk]
        exact hc
      rcases List.mem_cons.mp hmem with he | hm
      · exact absurd he hk
      · exact ih hm hc'

lemma teardown_components {b : TearBehavior} {s : GenState}
    (hoff : b.offThrows = false) (hend : b.endThrows = false)
    (hdes : b.destroyThrows = false) :
    (teardown b s).2 = false ∧
    (teardown b s).1.listeners = 0 ∧
    (teardown b s).1.busboyDestroyed = true ∧
    (teardown b s).1.streams = tearStreams b s.yieldedFileStreams s.streams
    := by
  by_cases hu : b.unpipeThrows = true <;>
  by_cases hr : (s.sourceReadable && !b.resumeThrows) = true <;>
  by_cases hbd : s.busboyDestroyed = true <;>
  simp [teardown, hu, hr, hbd, hoff, hend, hdes]

lemma teardown_piped {b : TearBehavior} {s : GenState}
    (hu : b.unpipeThrows = false) : (teardown b s).1.piped = false := by
  by_cases hr : (s.sourceReadable && !b.resumeThrows) = true <;>
  by_cases ho : b.offThrows = true <;>
  by_cases hbd : s.busboyDestroyed = true <;>
  by_cases he : b.endThrows = true <;>
  by_cases hd : b.destroyThrows = true <;>
  simp [teardown, hu, hr, ho, hbd, he, hd]

lemma teardown_resumed {b : TearBehavior} {s : GenState}
    (hres : b.resumeThrows = false) (hread : s.sourceReadable = true) :
    (teardown b s).1.sourceResumed = true := by
  by_cases hu : b.unpipeThrows = true <;>
  by_cases ho : b.offThrows = true <;>
  by_cases hbd : s.busboyDestroyed = true <;>
  by_cases he : b.endThrows = true <;>
  by_cases hd : b.destroyThrows = true <;>
  simp [teardown, hu, ho, hbd, he, hd, hres, hread]

/-! ## Consequences of the invariant at terminal states -/

lemma consumeEvent_blocked (s1 : GenState) (o : Option InternalEvent) :
    (consumeEvent s1 o).blocked = s1.blocked := by
  cases o with
  | none => rfl
  | some e =>
    cases e with
    | ev e' => cases e' <;> rfl
    | close => rfl
    | error code => rfl

lemma processAll_upto_close {p q : List InternalEvent}
    (h : termOf p = none) :
    processAll ((p ++ [.close]) ++ q) = processAll p := by
  rw [List.append_assoc, processAll_append h]
  simp [processAll]

lemma processAll_upto_error {p q : List InternalEvent} {code : Nat}
    (h : termOf p = none) :
    processAll ((p ++ [.error code]) ++ q) = processAll p := by
  rw [List.append_assoc, processAll_append h]
  simp [processAll]

/-- At a completed state, the yielded events are exactly the external
events of the whole pushed history (everything before the close marker). -/
lemma inv_completed_yielded {allowed : List String} {s : GenState}
    (h : Inv allowed s) (hco : s.outcome = some .completed) :
    s.yielded = processAll s.pushed := by
  obtain ⟨hq, hpop, hy, hfs, hok, hout⟩ := h
  rw [hco] at hout
  obtain ⟨p, hp, htp⟩ := hout
  have hyp : s.yielded = processAll p := by
    rw [hy, hp]
    have h1 := processAll_upto_close (q := []) htp
    simpa using h1
  rw [hyp, ← List.take_append_drop s.popped s.pushed, hp]
  exact (processAll_upto_close htp).symm

/-- At a completed state, the popped prefix ends exactly at the close
marker. -/
lemma inv_completed_decomp {allowed : List String} {s : GenState}
    (h : Inv allowed s) (hco : s.outcome = some .completed) :
    ∃ p, s.pushed.take s.popped = p ++ [.close] ∧ termOf p = none ∧
      s.yielded = processAll p := by
  obtain ⟨hq, hpop, hy, hfs, hok, hout⟩ := h
  rw [hco] at hout
  obtain ⟨p, hp, htp⟩ := hout
  refine ⟨p, hp, htp, ?_⟩
  rw [hy, hp]
  have h1 := processAll_upto_close (q := []) htp
  simpa using h1

/-- At a failed state, the popped prefix ends exactly at the error marker
carrying the raised code, and the yielded events are the external events
before it. -/
lemma inv_failed_decomp {allowed : List String} {s : GenState} {code : Nat}
    (h : Inv allowed s) (hco : s.outcome = some (.failed code)) :
    ∃ p, s.pushed.take s.popped = p ++ [.error code] ∧ termOf p = none ∧
      s.yielded = processAll p := by
  obtain ⟨hq, hpop, hy, hfs, hok, hout⟩ := h
  rw [hco] at hout
  obtain ⟨p, hp, htp⟩ := hout
  refine ⟨p, hp, htp, ?_⟩
  rw [hy, hp]
  have h1 : processAll ((p ++ [InternalEvent.error code])
      ++ ([] : List InternalEvent)) = processAll p :=
    processAll_upto_error htp
  simpa using h1

/-! ## Claim theorems -/

/-- C1: for every schedule of producer callbacks and consumer steps, the
events the consumer observes are exactly the non-internal events of the
enqueued history, in enqueue order (strict FIFO, no reordering, no skips;
files filtered by the allow-list are never enqueued, see C4); at a
completed state the consumer has observed every external event ever
enqueued.  In particular, `Queue.push` followed by `Queue.pop` returns
items in insertion order. -/
theorem events_yielded_in_fifo_order (allowed : List String) (r : Bool)
    (as : List Action) (hlen : as.length < counterModulus) :
    ((run allowed (initState r) as).yielded
        = processAll ((run allowed (initState r) as).pushed.take
            (run allowed (initState r) as).popped) ∧
      ((run allowed (initState r) as).outcome = some .completed →
        (run allowed (initState r) as).yielded
          = processAll (run allowed (initState r) as).pushed)) ∧
    ∀ (a b : InternalEvent),
      (((Queue.empty InternalEvent).push a).push b).pop.1 = some a ∧
      ((((Queue.empty InternalEvent).push a).push b).pop.2).pop.1
        = some b := by
  have hinv :=
    (run_inv (inv_init allowed r) (by simpa [initState] using hlen)).1
  refine ⟨⟨hinv.2.2.1, fun hco => inv_completed_yielded hinv hco⟩, ?_⟩
  intro a b
  exact ⟨rfl, rfl⟩

/-- C1 witness: on the concrete schedule `completedSchedule`, the run
completes and the consumer observed exactly the one field event that was
enqueued before the close marker. -/
theorem events_yielded_in_fifo_order_witness :
    (run [] (initState false) completedSchedule).outcome
        = some .completed ∧
    (run [] (initState false) completedSchedule).yielded
        = processAll (run [] (initState false) completedSchedule).pushed ∧
    (run [] (initState false) completedSchedule).yielded
        = [.field "a" "1" sampleFieldInfo] := by
  have h := events_yielded_in_fifo_order [] false completedSchedule
    (by norm_num [completedSchedule, counterModulus, maxSafeInteger])
  exact ⟨by decide, h.1.2 (by decide), by decide⟩

/-- C2 counterexample: the claim that every *enqueued* file event is
recorded in the delivered-streams collection fails.  On
`threeFilesSchedule` the consumer yields only the first of three enqueued
file events and abandons; the file event for stream 2 is enqueued (in the
pushed history, still sitting in the queue), yet after teardown its
stream is not destroyed — only the yielded stream 1 is. -/
theorem enqueued_stream_not_destroyed_cex :
    InternalEvent.ev (.file "b" 2 sampleFileInfo)
        ∈ (run [] (initState false) threeFilesSchedule).pushed ∧
    (run [] (initState false) threeFilesSchedule).outcome
        = some .abandoned ∧
    (((teardown TearBehavior.quiet
        (run [] (initState false) threeFilesSchedule)).1).streams 2).destroyed
        = false ∧
    (((teardown TearBehavior.quiet
        (run [] (initState false) threeFilesSchedule)).1).streams 1).destroyed
        = true := by decide

/-- C2 (amended): a file event's stream is recorded in
`yieldedFileStreams` when the event is popped and *yielded* to the
consumer (not when it is enqueued); teardown destroys the streams of all
yielded file events, while file events still sitting in the queue at
early termination are not recorded and their streams are left
untouched. -/
theorem delivered_streams_destroyed_amended (allowed : List String)
    (r : Bool) (as : List Action) (hlen : as.length < counterModulus) :
    (run allowed (initState r) as).yieldedFileStreams
        = fileSids (run allowed (initState r) as).yielded ∧
    ∀ sid, sid ∈ (run allowed (initState r) as).yieldedFileStreams →
      (((teardown TearBehavior.quiet
          (run allowed (initState r) as)).1).streams sid).destroyed
        = true := by
  have hinv :=
    (run_inv (inv_init allowed r) (by simpa [initState] using hlen)).1
  refine ⟨hinv.2.2.2.1, ?_⟩
  intro sid hmem
  have hc := teardown_components (b := TearBehavior.quiet)
    (s := run allowed (initState r) as) rfl rfl rfl
  rw [hc.2.2.2]
  exact tearStreams_mem_destroyed hmem rfl rfl

/-- C2 witness: on `threeFilesSchedule` the recorded collection is exactly
the yielded stream 1, and its stream is destroyed by teardown. -/
theorem delivered_streams_destroyed_amended_witness :
    (run [] (initState false) threeFilesSchedule).yieldedFileStreams
        = [1] ∧
    (((teardown TearBehavior.quiet
        (run [] (initState false) threeFilesSchedule)).1).streams 1).destroyed
        = true := by
  have h := delivered_streams_destroyed_amended [] false threeFilesSchedule
    (by norm_num [threeFilesSchedule, counterModulus, maxSafeInteger])
  exact ⟨by decide, h.2 1 (by decide)⟩

/-- C3: the sequence has exactly one terminal outcome.  A failed run
popped exactly through an error marker and raises exactly its carried
code, having yielded precisely the external events before it; a completed
run popped exactly through the close marker; and once the outcome is set,
no further events are ever yielded (and the outcome never changes), even
if the producer keeps enqueueing events afterwards. -/
theorem terminal_event_behaviour (allowed : List String) (r : Bool)
    (as extra : List Action) (hlen : as.length < counterModulus) :
    (∀ code, (run allowed (initState r) as).outcome
          = some (.failed code) →
      ∃ p, (run allowed (initState r) as).pushed.take
            (run allowed (initState r) as).popped = p ++ [.error code] ∧
          termOf p = none ∧
          (run allowed (initState r) as).yielded = processAll p) ∧
    ((run allowed (initState r) as).outcome = some .completed →
      ∃ p, (run allowed (initState r) as).pushed.take
            (run allowed (initState r) as).popped = p ++ [.close] ∧
          termOf p = none ∧
          (run allowed (initState r) as).yielded = processAll p) ∧
    ((run allowed (initState r) as).outcome.isSome = true →
      (run allowed (run allowed (initState r) as) extra).yielded
          = (run allowed (initState r) as).yielded ∧
      (run allowed (run allowed (initState r) as) extra).outcome
          = (run allowed (initState r) as).outcome) := by
  have hinv :=
    (run_inv (inv_init allowed r) (by simpa [initState] using hlen)).1
  exact ⟨fun code hc => inv_failed_decomp hinv hc,
         fun hc => inv_completed_decomp hinv hc,
         fun hs => run_frozen hs⟩

/-- C3 witness: on `failedSchedule` the run fails with the carried code 7,
the popped prefix ends at that error marker, and pushing and consuming
more events after the terminal changes nothing. -/
theorem terminal_event_behaviour_witness :
    (run [] (initState false) failedSchedule).outcome
        = some (.failed 7) ∧
    (∃ p, (run [] (initState false) failedSchedule).pushed.take
          (run [] (initState false) failedSchedule).popped
            = p ++ [.error 7] ∧
        termOf p = none ∧
        (run [] (initState false) failedSchedule).yielded
          = processAll p) ∧
    (run [] (run [] (initState false) failedSchedule)
        [.emit .close, .consume]).yielded
      = (run [] (initState false) failedSchedule).yielded := by
  have h := terminal_event_behaviour [] false failedSchedule
    [.emit .close, .consume]
    (by norm_num [failedSchedule, counterModulus, maxSafeInteger])
  exact ⟨by decide, h.1 7 (by decide), (h.2.2 (by decide)).1⟩

/-- C4: `onFile` filtering.  If the allow-list is non-empty and the file's
field name is not in it, the emission only resumes the file's stream —
nothing is enqueued; if the list is empty or contains the name, the event
is enqueued via `notify`.  Consequently every file event ever yielded on
any run has an allowed name. -/
theorem file_allowlist_filtering (allowed : List String) (s : GenState)
    (name : String) (sid : Nat) (info : FileInfo) :
    (allowed ≠ [] → allowed.contains name = false →
      step allowed s (.emit (.ev (.file name sid info)))
        = { s with streams := setStream s.streams sid { s.streams sid with resumed := true } }) ∧
    ((allowed = [] ∨ allowed.contains name = true) →
      step allowed s (.emit (.ev (.file name sid info)))
        = notifyPush s (.ev (.file name sid info))) ∧
    (∀ (r : Bool) (as : List Action), as.length < counterModulus →
      ∀ name2 sid2 info2,
        Event.file name2 sid2 info2
            ∈ (run allowed (initState r) as).yielded →
        allowed = [] ∨ allowed.contains name2 = true) := by
  refine ⟨?_, ?_, ?_⟩
  · intro hne hcon
    have hmem : name ∉ allowed := by simpa using hcon
    simp only [step]
    rw [if_neg]
    simp [List.length_eq_zero, hne, hmem]
  · intro hal
    simp only [step]
    rw [if_pos]
    rcases hal with h | h
    · simp [h]
    · have hmem : name ∈ allowed := by simpa using h
      simp [hmem]
  · intro r as hlen2 name2 sid2 info2 hmem
    have hinv :=
      (run_inv (inv_init allowed r) (by simpa [initState] using hlen2)).1
    obtain ⟨hq, hpop, hy, hfs, hok, hout⟩ := hinv
    rw [hy] at hmem
    have h2 := List.mem_of_mem_take (mem_of_mem_processAll hmem)
    rcases hok name2 sid2 info2 h2 with h | h
    · exact Or.inl (List.length_eq_zero.mp h)
    · exact Or.inr h

/-- C4 witness: with the allow-list `["image", "document"]`, a file event
named "other" only resumes its stream and is not enqueued, while a file
named "image" is enqueued. -/
theorem file_allowlist_filtering_witness :
    step ["image", "document"] (initState false)
        (.emit (.ev (.file "other" 5 sampleFileInfo)))
      = { initState false with streams := setStream (initState false).streams 5 { (initState false).streams 5 with resumed := true } } ∧
    step ["image", "document"] (initState false)
        (.emit (.ev (.file "image" 6 sampleFileInfo)))
      = notifyPush (initState false)
          (.ev (.file "image" 6 sampleFileInfo)) := by
  have h1 := (file_allowlist_filtering ["image", "document"]
    (initState false) "other" 5 sampleFileInfo).1 (by decide) (by decide)
  have h2 := (file_allowlist_filtering ["image", "document"]
    (initState false) "image" 6 sampleFileInfo).2.1 (Or.inr (by decide))
  exact ⟨h1, h2⟩

/-- C5: the teardown block (run after every exit of the loop — normal
completion, propagated error, or abandonment; the state `s` is arbitrary,
covering all of them) escapes no exception when nothing throws, unpipes
the source, resumes it when still readable, detaches all listeners,
destroys the producer, and, for every delivered stream that is not
already closed/destroyed, suppresses its error propagation, resumes
(drains) it and forcibly destroys it. -/
theorem teardown_destroys_yielded_streams (s : GenState) :
    (teardown TearBehavior.quiet s).2 = false ∧
    (teardown TearBehavior.quiet s).1.piped = false ∧
    (teardown TearBehavior.quiet s).1.listeners = 0 ∧
    (teardown TearBehavior.quiet s).1.busboyDestroyed = true ∧
    (s.sourceReadable = true →
      (teardown TearBehavior.quiet s).1.sourceResumed = true) ∧
    ∀ sid, sid ∈ s.yieldedFileStreams → (s.streams sid).closed = false →
      (s.streams sid).destroyed = false →
      ((teardown TearBehavior.quiet s).1.streams sid).errorSuppressed
          = true ∧
      ((teardown TearBehavior.quiet s).1.streams sid).resumed = true ∧
      ((teardown TearBehavior.quiet s).1.streams sid).destroyed = true := by
  have hc := teardown_components (b := TearBehavior.quiet) (s := s)
    rfl rfl rfl
  refine ⟨hc.1, teardown_piped rfl, hc.2.1, hc.2.2.1,
    fun hr => teardown_resumed rfl hr, ?_⟩
  intro sid hmem hcl _hde
  rw [hc.2.2.2]
  exact tearStreams_mem_trio hmem hcl

/-- C5 witness: after the abandoned `threeFilesSchedule` run, teardown
unpipes, detaches the listeners, destroys the producer, and destroys the
delivered stream 1 (suppressing its errors and draining it first). -/
theorem teardown_destroys_yielded_streams_witness :
    (teardown TearBehavior.quiet
        (run [] (initState false) threeFilesSchedule)).2 = false ∧
    (teardown TearBehavior.quiet
        (run [] (initState false) threeFilesSchedule)).1.piped = false ∧
    (teardown TearBehavior.quiet
        (run [] (initState false) threeFilesSchedule)).1.listeners = 0 ∧
    ((teardown TearBehavior.quiet
        (run [] (initState false) threeFilesSchedule)).1.streams
          1).errorSuppressed = true ∧
    ((teardown TearBehavior.quiet
        (run [] (initState false) threeFilesSchedule)).1.streams
          1).destroyed = true := by
  have h := teardown_destroys_yielded_streams
    (run [] (initState false) threeFilesSchedule)
  have hs := h.2.2.2.2.2 1 (by decide) (by decide) (by decide)
  exact ⟨h.1, h.2.1, h.2.2.1, hs.1, hs.2.2⟩

/-- C6 counterexample: teardown steps are *not* all independently
best-effort.  The `busboy.off` listener-removal calls are not wrapped in
`try { } catch {}`: when they throw, the exception escapes the `finally`
block (masking the original termination cause) and the later steps — the
delivered-stream cleanup loop and the producer `end`/`destroy` — never
execute. -/
theorem teardown_off_throw_cex :
    (teardown offThrowsBehavior oneStreamState).2 = true ∧
    ((teardown offThrowsBehavior oneStreamState).1.streams 1).destroyed
        = false ∧
    (teardown offThrowsBehavior oneStreamState).1.busboyDestroyed
        = false ∧
    (teardown offThrowsBehavior oneStreamState).1.listeners = 7 := by
  decide

/-- C6 (amended): only the wrapped teardown steps are best-effort.
Exceptions from `source.unpipe`, `source.resume`, and each per-stream
cleanup body are swallowed and prevent neither the other steps nor the
remaining streams from being processed; exceptions from the unwrapped
`busboy.off` and `busboy.end()/destroy()` calls are not caught (see the
counterexample). -/
theorem teardown_wrapped_steps_swallowed (b : TearBehavior) (s : GenState)
    (hoff : b.offThrows = false) (hend : b.endThrows = false)
    (hdes : b.destroyThrows = false) :
    (teardown b s).2 = false ∧
    (teardown b s).1.listeners = 0 ∧
    (teardown b s).1.busboyDestroyed = true ∧
    ∀ sid, sid ∈ s.yieldedFileStreams →
      b.streamResumeThrows sid = false →
      b.streamDestroyThrows sid = false →
      ((teardown b s).1.streams sid).destroyed = true := by
  have hc := teardown_components (b := b) (s := s) hoff hend hdes
  refine ⟨hc.1, hc.2.1, hc.2.2.1, ?_⟩
  intro sid hmem hr hd
  rw [hc.2.2.2]
  exact tearStreams_mem_destroyed hmem hr hd

/-- C6 witness: with a throwing `source.unpipe`, teardown still completes
without escaping, removes the listeners, destroys the producer, and
destroys the delivered stream 1. -/
theorem teardown_wrapped_steps_swallowed_witness :
    (teardown { unpipeThrows := true } oneStreamState).2 = false ∧
    ((teardown { unpipeThrows := true } oneStreamState).1.streams
        1).destroyed = true := by
  have h := teardown_wrapped_steps_swallowed { unpipeThrows := true }
    oneStreamState rfl rfl rfl
  exact ⟨h.1, h.2.2.2 1 (by decide) rfl rfl⟩

/-- C7: the wake protocol loses no events.  `notify` resolves the current
wait handle and installs a fresh unresolved one; the consumer loop only
suspends when the queue is empty (re-checking emptiness after every
wake); and when two events are pushed in rapid succession while the
consumer is suspended (a single coalesced wake), both are eventually
yielded, in order. -/
theorem no_lost_wakeups :
    (∀ g : Gate, (∀ i, g.gen ≤ i → g.resolved i = false) →
      (g.notify).resolved g.gen = true ∧
      ∀ i, (g.notify).gen ≤ i → (g.notify).resolved i = false) ∧
    (∀ (allowed : List String) (s : GenState),
      (step allowed s .consume).blocked = true →
      s.blocked = true ∨ s.queue.isEmpty = true) ∧
    (∀ (allowed : List String) (n1 v1 n2 v2 : String),
      (run allowed (initState false)
          (coalescedWakeSchedule n1 v1 n2 v2)).yielded
        = [.field n1 v1 sampleFieldInfo, .field n2 v2 sampleFieldInfo]) := by
  refine ⟨?_, ?_, ?_⟩
  · intro g hg
    constructor
    · simp [Gate.notify]
    · intro i hi
      simp only [Gate.notify] at hi ⊢
      rw [if_neg (by omega)]
      exact hg i (by omega)
  · intro allowed s hb
    by_cases hdone : (s.outcome.isSome || s.blocked) = true
    · left
      have hsid : step allowed s .consume = s := by
        simp [step, hdone]
      rw [hsid] at hb
      exact hb
    · by_cases hemp : s.queue.isEmpty = true
      · exact Or.inr hemp
      · exfalso
        have hsb : s.blocked = false := by
          simp only [Bool.or_eq_true, not_or, Bool.not_eq_true] at hdone
          exact hdone.2
        have hstep : (step allowed s .consume).blocked = s.blocked := by
          simp only [step]
          rw [if_neg hdone, if_neg hemp, consumeEvent_blocked]
        rw [hstep, hsb] at hb
        cases hb
  · intro allowed n1 v1 n2 v2
    rfl

/-- C7 witness: the initial gate's waiter is resolved by `notify` and the
fresh one is unresolved; a consumer step on the fresh empty queue
suspends; and on a concrete coalesced-wake schedule both events pushed
while the consumer was suspended are yielded in order. -/
theorem no_lost_wakeups_witness :
    ((Gate.init.notify).resolved Gate.init.gen = true ∧
      ∀ i, (Gate.init.notify).gen ≤ i →
        (Gate.init.notify).resolved i = false) ∧
    ((initState false).blocked = true ∨
      (initState false).queue.isEmpty = true) ∧
    (run [] (initState false) (coalescedWakeSchedule "a" "1" "b" "2")).yielded
      = [.field "a" "1" sampleFieldInfo, .field "b" "2" sampleFieldInfo] := by
  refine ⟨no_lost_wakeups.1 Gate.init (fun i _ => rfl), ?_, ?_⟩
  · exact no_lost_wakeups.2.1 [] (initState false) (by decide)
  · exact no_lost_wakeups.2.2 [] "a" "1" "b" "2"

/-- C8: the queue's position counters wrap at `Number.MAX_SAFE_INTEGER`
instead of overflowing: `advance` maps the maximum to 0, and push, pop and
isEmpty remain correct (FIFO order and emptiness reporting preserved, via
the list abstraction `Queue.models`) for any queue whose size stays below
the counter range. -/
theorem queue_counters_wrap_safely :
    advance maxSafeInteger = 0 ∧
    (∀ (q : Queue Nat) (l : List Nat) (a : Nat), q.models l →
      l.length + 1 < counterModulus → (q.push a).models (l ++ [a])) ∧
    (∀ (q : Queue Nat) (a : Nat) (l : List Nat), q.models (a :: l) →
      q.pop.1 = some a ∧ q.pop.2.models l) ∧
    (∀ (q : Queue Nat) (l : List Nat), q.models l →
      (q.isEmpty = true ↔ l = [])) := by
  refine ⟨by simp [advance], ?_, ?_, ?_⟩
  · intro q l a h hl
    exact Queue.models_push a h hl
  · intro q a l h
    exact Queue.models_pop h
  · intro q a h
    exact Queue.isEmpty_models h

/-- C8 witness: an empty queue whose counters sit at the maximum accepts a
push whose tail counter wraps to 0, and pop returns the pushed item. -/
theorem queue_counters_wrap_safely_witness :
    (wrapQueue.push 5).models [5] ∧
    ((wrapQueue.push 5).pop.1 = some 5 ∧
      (wrapQueue.push 5).pop.2.models []) ∧
    (wrapQueue.isEmpty = true ↔ ([] : List Nat) = []) ∧
    (wrapQueue.push 5).tail = 0 := by
  have hm : wrapQueue.models [] := by
    refine ⟨?_, ?_, ?_, ?_⟩
    · show maxSafeInteger < counterModulus
      norm_num [counterModulus]
    · show maxSafeInteger = (maxSafeInteger + 0) % counterModulus
      rw [Nat.add_zero, Nat.mod_eq_of_lt (by norm_num [counterModulus])]
    · show ([] : List Nat).length < counterModulus
      norm_num [counterModulus]
    · intro i hi
      simp at hi
  have h1 := queue_counters_wrap_safely.2.1 wrapQueue [] 5 hm
    (by norm_num [counterModulus, maxSafeInteger])
  refine ⟨h1, queue_counters_wrap_safely.2.2.1 (wrapQueue.push 5) 5 [] h1,
    queue_counters_wrap_safely.2.2.2 wrapQueue [] hm, ?_⟩
  show advance wrapQueue.tail = 0
  exact queue_counters_wrap_safely.1

/-- C9: every native producer option of the caller's configuration is
forwarded unchanged to the producer constructor, together with the
source's headers, while `allowedFileNames` is stripped (deleted before
the spread) so the producer never receives it; the allow-list used for
filtering is the one read from the caller's object before the delete. -/
theorem config_forwarded_without_allowlist (hs : Option Headers)
    (c : Config) :
    ((busboySetup hs (some c)).2.2).native = c.toBusboyNativeConfig ∧
    ((busboySetup hs (some c)).2.2).allowedFileNames = none ∧
    ((busboySetup hs (some c)).2.2).headers = hs ∧
    (busboySetup hs (some c)).1 = c.allowedFileNames.getD [] := by
  exact ⟨rfl, rfl, rfl, rfl⟩

/-- C10: the generator mutates the caller-supplied config object:
`delete config?.allowedFileNames` removes the property from the very
object the caller passed in, so after the call the caller's config no
longer has it (while all its native options are untouched). -/
theorem caller_config_mutated (hs : Option Headers) (c : Config) :
    (busboySetup hs (some c)).2.1
        = some { c with allowedFileNames := none } ∧
    ((busboySetup hs (some c)).2.1).bind (fun c1 => c1.allowedFileNames)
        = none := by
  exact ⟨rfl, rfl⟩

end BusboyAsync
